import Mathlib

/-!
# Verification of the PLEB in-process message bus core

A shallow embedding, in Lean 4, of the routing and lifetime machinery of the
PLEB message bus (`src/include/pleb/...`), together with theorems settling the
frozen claims about its specification.

Conventions used throughout:

* C++ `std::string` / `std::string_view` values are modelled as `List Char`.
* 16-bit flag words (`flags::filtering`, `flags::features`) are modelled as
  `Nat` bit masks, with `&&&`, `|||` and explicit 16-bit complements
  (`x &&& 32767` models `x & ~recursive` on a `uint16_t`, etc.).
* Pointers to resource nodes are modelled either by an inductive node type
  (`RNode`, for the trie) or by abstract identifiers (`Nat`) where only
  identity matters.
* Fallible C++ code (`throw`) is modelled with `Except`/`Option` results.
-/

namespace Pleb

/-! ## Flag constants, from `flags.hpp` and `status.hpp`

`flags::filtering` (16 bit): `recursive = 1<<15`, `announce_receiver = 1<<14`,
`subscriber_exception = 1<<13`, `logging = 1<<8`, `internal = 1<<7`,
`remote = 1<<6`, `regular = 1`.
`flags::features`: `did_send = 1<<8`, `did_respond = 1<<9`.
Status codes are the standard HTTP set (`HttpStatus::Code`):
`NoContent = 204`, `Created = 201`, `InternalServerError = 500`. -/

def recursiveFlag : Nat := 32768

def announceReceiverFlag : Nat := 16384

def subscriberExceptionFlag : Nat := 8192

def regularFlag : Nat := 1

def defaultMessageFiltering : Nat := regularFlag ||| recursiveFlag

def didSendFlag : Nat := 256

def didRespondFlag : Nat := 512

def statusNoContent : Nat := 204

def statusInternalServerError : Nat := 500

/-- `receiver::accepts` from `message.hpp`:
`return !(message_filtering & ignored);`. -/
def accepts (ignored messageFiltering : Nat) : Bool :=
  messageFiltering &&& ignored == 0

/-! ## `topic_view` (topic.hpp): iteration over a delimited path

`topic_view_<Delimiter>::iterator::_consume(p)` skips delimiter characters,
then spans the following non-delimiter characters; iteration ends when the
consumed segment starts at the end of the string.  `topicViewSegments`
reproduces that pointer loop on `List Char`. -/

/-- The sequence of segments produced by iterating a `topic_view` over `s`
with separator `sep` (from `topic_view_::iterator` in `topic.hpp`). -/
def topicViewSegments (sep : Char) : List Char → List (List Char)
  | [] => []
  | c :: t =>
    if c = sep then
      topicViewSegments sep t
    else
      (c :: t.takeWhile (fun x => x ≠ sep)) ::
        topicViewSegments sep (t.dropWhile (fun x => x ≠ sep))
  termination_by l => l.length
  decreasing_by
    · simp
    · simp only [List.length_cons]
      exact Nat.lt_succ_of_le (t.dropWhile_sublist _).length_le

/-- The canonical split of the claim: split on the separator and drop all
empty segments. -/
def canonicalSplit (sep : Char) (s : List Char) : List (List Char) :=
  (s.splitOnP (· == sep)).filter (fun seg => !seg.isEmpty)

theorem modifyHead_comp (f g : List Char → List Char) (l : List (List Char)) :
    (l.modifyHead g).modifyHead f = l.modifyHead (f ∘ g) := by
  cases l <;> simp

theorem splitOnP_filter_aux (sep : Char) (s : List Char) (hs : s ≠ []) (t : List Char) :
    ((t.splitOnP (· == sep)).modifyHead (s ++ ·)).filter (fun seg => !seg.isEmpty)
      = (s ++ t.takeWhile (fun x => x ≠ sep)) ::
        ((t.dropWhile (fun x => x ≠ sep)).splitOnP (· == sep)).filter
          (fun seg => !seg.isEmpty) := by
  induction t generalizing s with
  | nil => simp [List.splitOnP_nil, hs, List.isEmpty_eq_true]
  | cons x t' ih =>
    by_cases hx : x = sep
    · subst hx
      simp [List.splitOnP_cons, hs, List.isEmpty_eq_true]
    · rw [List.splitOnP_cons, if_neg (by simp [hx])]
      rw [modifyHead_comp]
      have : ((s ++ ·) ∘ (x :: ·)) = ((s ++ [x]) ++ ·) := by
        funext l; simp
      rw [this, ih (s ++ [x]) (by simp)]
      simp [hx, List.takeWhile_cons, List.dropWhile_cons]

theorem topicViewSegments_eq_canonicalSplit (sep : Char) (s : List Char) :
    topicViewSegments sep s = canonicalSplit sep s := by
  induction s using topicViewSegments.induct sep with
  | case1 => simp [topicViewSegments, canonicalSplit, List.splitOnP_nil]
  | case2 t ih =>
    simp only [topicViewSegments, if_pos rfl, canonicalSplit, List.splitOnP_cons]
    simp [ih, canonicalSplit]
  | case3 c t hc ih =>
    simp only [topicViewSegments, if_neg hc, canonicalSplit, List.splitOnP_cons,
      if_neg (by simp [hc] : ¬((c == sep) = true))]
    rw [show (List.cons c) = (([c] : List Char) ++ ·) by funext l; simp]
    rw [splitOnP_filter_aux sep [c] (by simp) t]
    simp only [canonicalSplit] at ih
    simpa using ih

/-- C6: iterating `topic_view(s)` yields exactly the split of `s` on the
separator character with all empty segments dropped (leading, trailing and
repeated separators are ignored); in particular `topic_view("//a/b//c/")`
yields `{"a","b","c"}`. -/
theorem claim_C6_topic_view_yields_canonical_split :
    (∀ (sep : Char) (s : List Char),
        topicViewSegments sep s = canonicalSplit sep s)
      ∧ topicViewSegments '/' "//a/b//c/".toList = [['a'], ['b'], ['c']] := by
  refine ⟨topicViewSegments_eq_canonicalSplit, ?_⟩
  simp [topicViewSegments]

/-! ## The resource trie (`coop/trie.hpp`)

A `coop::trie_` node is created either as a root (`trie_(id, separator)`,
giving `_path = id`, `_path_id_pos = 0`, no parent) or as a child through
`get_child` (`trie_(id, parent)`, giving
`_path = _concat(parent->path(), parent->_separator, id)` and
`_path_id_pos = _path.length() - id.length()`).  `RNode` mirrors exactly
those two construction paths. -/

inductive RNode where
  | root (id : List Char) (sep : Char)
  | child (parent : RNode) (id : List Char)
deriving DecidableEq, Repr

/-- The separator character, fixed at root creation and inherited by
children (`_separator(_parent->_separator)`). -/
def RNode.sep : RNode → Char
  | .root _ s => s
  | .child p _ => p.sep

/-- `coop::trie_::_concat` (trie.hpp): appends `separator` and `id` to
`base`, except that the separator is omitted when `base` is empty. -/
def concatPath (base : List Char) (sep : Char) (id : List Char) : List Char :=
  if base.length ≠ 0 then base ++ sep :: id else id

/-- `trie_::path()`: the `_path` member as assigned by the constructors. -/
def RNode.path : RNode → List Char
  | .root i _ => i
  | .child p i => concatPath p.path p.sep i

/-- `_path_id_pos`: 0 for a root, `_path.length() - id.length()` for a
child. -/
def RNode.idPos : RNode → Nat
  | .root _ _ => 0
  | .child p i => (RNode.child p i).path.length - i.length

/-- `trie_::id()`: the suffix of `_path` starting at `_path_id_pos`. -/
def RNode.nodeId (n : RNode) : List Char := n.path.drop n.idPos

/-- `trie_::parent()`: the `_parent` member; null for a root. -/
def RNode.parent : RNode → Option RNode
  | .root _ _ => none
  | .child p _ => some p

theorem child_nodeId (p : RNode) (i : List Char) :
    (RNode.child p i).nodeId = i := by
  simp only [RNode.nodeId, RNode.idPos, RNode.path, concatPath]
  by_cases hp : p.path.length ≠ 0
  · rw [if_pos hp]
    have h1 : p.path ++ p.sep :: i = (p.path ++ [p.sep]) ++ i := by simp
    rw [h1]
    have h2 : ((p.path ++ [p.sep]) ++ i).length - i.length
        = (p.path ++ [p.sep]).length := by
      simp
      omega
    rw [h2, List.drop_left]
  · rw [if_neg hp]
    simp

/-- C5 counterexample: a child of a root whose path is empty.  `_concat`
omits the separator when the base path is empty, so the child's path is just
its id, not `parent.path ⊕ sep ⊕ id`. -/
theorem claim_C5_counterexample_empty_root_path :
    (RNode.child (RNode.root [] '/') ['a']).path = ['a']
      ∧ (RNode.child (RNode.root [] '/') ['a']).path
          ≠ (RNode.root [] '/').path ++ (RNode.root [] '/').sep :: ['a'] := by
  constructor
  · rfl
  · decide

/-- C5 (amended): for every node created through the trie, the child's path
is `parent.path ⊕ sep ⊕ id` provided the parent's path is nonempty (as holds
for every node under the global root `"[root]"`); a child of an empty-path
node gets path equal to its bare id.  Independently, `id()` recovers the id
the child was created with, so re-resolving `parent.child(t.id())` yields a
node with exactly `t`'s path (the claim's consequence
`t.parent().child(t.id()).path() == t.path()`). -/
theorem claim_C5_amended_path_invariant (p : RNode) (i : List Char) :
    (p.path ≠ [] → (RNode.child p i).path = p.path ++ p.sep :: i)
      ∧ (RNode.child p i).nodeId = i
      ∧ (RNode.child p (RNode.child p i).nodeId).path = (RNode.child p i).path := by
  refine ⟨?_, child_nodeId p i, by rw [child_nodeId]⟩
  intro hp
  simp only [RNode.path, concatPath]
  rw [if_pos (by simpa [List.length_eq_zero] using hp)]

theorem claim_C5_amended_path_invariant_witness :
    (RNode.child (RNode.root ['r'] '/') ['a']).path
      = (RNode.root ['r'] '/').path ++ (RNode.root ['r'] '/').sep :: ['a'] :=
  (claim_C5_amended_path_invariant (RNode.root ['r'] '/') ['a']).1 (by decide)

/-! ## Topic parent navigation (`topic.hpp`, `topic_impl.hpp`)

The eager variant `topic_base_<void>` holds a node pointer `_node`; its
`_pop()` is `_node = _node->parent()`.  The lazy variant holds the nearest
existing node `_nearest` plus a leftover `_subpath` string; its `_pop()`
drops the last subpath segment when `_subpath` is nonempty and otherwise
does `_nearest = _nearest->parent()`. -/

/-- The value `p` computed by the loop in `topic_view::parent()`: the start
offset of the last path segment (0 when there is none).  `i` is the current
offset, `prevSep` whether the previous character was a separator. -/
def lastSegStartGo (sep : Char) : List Char → Nat → Bool → Nat → Nat
  | [], _, _, p => p
  | c :: t, i, prevSep, p =>
    if c = sep then lastSegStartGo sep t (i + 1) true p
    else lastSegStartGo sep t (i + 1) false (if prevSep then i else p)

/-- `topic_view::parent()` (topic.hpp): the prefix of the string up to (and
excluding) the separator preceding the last segment:
`string.substr(0, p ? p-1 : 0)`. -/
def topicViewParent (sep : Char) (s : List Char) : List Char :=
  let p := lastSegStartGo sep s 0 true 0
  s.take (if p = 0 then 0 else p - 1)

/-- The lazy topic variant (`topic_base_` with a subpath string, as
implemented in topic_impl.hpp): nearest existing node plus leftover path.
`nearest` is an `Option` because `_nearest->parent()` is null at the
root. -/
structure LazyTopic where
  nearest : Option RNode
  subpath : List Char
deriving DecidableEq, Repr

/-- `topic_base_<std::string>::_pop()` (topic_impl.hpp): if the subpath is
nonempty, replace it by `topic_view(_subpath).parent()`; otherwise
`_nearest = _nearest->parent()`. -/
def lazyPop (t : LazyTopic) : LazyTopic :=
  if t.subpath.length ≠ 0 then
    { t with subpath := topicViewParent '/' t.subpath }
  else
    { t with nearest := t.nearest.bind RNode.parent }

/-- A root `topic_path`: nearest node is the root resource, no leftover
subpath (the state produced by `topic_base_<lazy_path>()`). -/
def rootLazyTopic (i : List Char) (sep : Char) : LazyTopic :=
  { nearest := some (RNode.root i sep), subpath := [] }

/-- C9: evaluating both `parent()` implementations at a root topic.  The
eager half of the claim holds: the parent of a root `topic` is null.  The
lazy half fails in the code: `_pop()` on a root `topic_path` assigns
`_nearest = _nearest->parent()`, which is null for the root — the result is
a null-nearest `topic_path`, not the root itself as the claim (and the
documentation comment above `topic_::parent` in topic.hpp) states. -/
theorem claim_C9_parent_of_root_evaluation :
    (∀ (i : List Char) (sep : Char), (RNode.root i sep).parent = none)
      ∧ (lazyPop (rootLazyTopic "[root]".toList '/')).nearest = none
      ∧ lazyPop (rootLazyTopic "[root]".toList '/')
          ≠ rootLazyTopic "[root]".toList '/' := by
  refine ⟨fun i sep => rfl, rfl, ?_⟩
  decide

/-! ## Topic equality operators (`topic.hpp`, lines 259-260)

`topic_base_<void>::operator==` returns `_node == other._node`;
`operator!=` *also* returns `_node == other._node`.  Node pointers are
modelled by optional identifiers (`_node` may be null). -/

/-- `topic_base_<void>::operator==`: pointer equality of `_node`. -/
def topicNodeEq (a b : Option Nat) : Bool := a == b

/-- `topic_base_<void>::operator!=` as written in the source:
`{return _node == other._node;}` — the same expression as `operator==`. -/
def topicNodeNe (a b : Option Nat) : Bool := a == b

/-- C10: `operator!=` is not the negation of `operator==`.  At two topics
referencing distinct nodes, `a != b` evaluates to `false` while
`!(a == b)` is `true`; indeed `operator!=` coincides with `operator==`
everywhere. -/
theorem claim_C10_ne_equals_eq_evaluation :
    topicNodeNe (some 0) (some 1) = false
      ∧ (!topicNodeEq (some 0) (some 1)) = true
      ∧ (∀ a b, topicNodeNe a b = topicNodeEq a b) :=
  ⟨rfl, rfl, fun _ _ => rfl⟩

/-! ## The service slot (`coop_pool.h`, `resource_node.hpp`)

`coop::unmanaged::slot<T>` holds inline storage, a weak reference and a
visitor guard.  In the single-threaded semantics (the claims' scope — no
concurrent visitor), `try_emplace` succeeds exactly when the weak reference
is expired, and the returned shared reference is the sole strong owner:
when it and all references derived from it drop, the object is destroyed
and the slot is empty again.  The state of the slot is therefore the
identity of the live occupant, if any; live handles are modelled by `Nat`
identifiers and the drop of the last strong reference by an explicit
transition. -/

structure ServiceSlot where
  live : Option Nat
deriving DecidableEq, Repr

/-- `slot::expired` / `slot::empty`: whether the weak reference is dead. -/
def ServiceSlot.expired (s : ServiceSlot) : Bool := s.live.isNone

/-- `slot::lock` (and `resource_data::service_lock`): obtain a shared
reference to the current occupant, empty if expired. -/
def ServiceSlot.lock (s : ServiceSlot) : Option Nat := s.live

/-- `slot::try_emplace` (via `resource_data::try_emplace_service`): fill the
slot and return the new sole strong reference when the slot is empty,
otherwise return null and leave the slot unchanged. -/
def ServiceSlot.tryEmplace (s : ServiceSlot) (h : Nat) : Option Nat × ServiceSlot :=
  if s.expired then (some h, { live := some h }) else (none, s)

/-- The last strong reference derived from the emplaced handle drops: the
occupant is destroyed and the weak reference expires. -/
def ServiceSlot.dropService (_ : ServiceSlot) : ServiceSlot := { live := none }

/-- Modelled from the spec: `topic_::current_service()` is declared in
`topic.hpp` ("Get the service, if any, at this specific topic") but its body
is not under src/; per the spec it reads the topic's node's service slot,
i.e. `service_lock` = `slot::lock`. -/
def currentService (s : ServiceSlot) : Option Nat := s.lock

/-- C4: after `serve` returns a non-null handle `h`, `current_service()`
equals `h` and any further `serve` fails (returning null and leaving the
slot unchanged) while `h` is live; after `h` and all derived references
drop, `current_service()` is null and a subsequent `serve` succeeds
again. -/
theorem claim_C4_single_service_slot_lifecycle
    (s : ServiceSlot) (h1 h2 h3 : Nat) (hempty : s.live = none) :
    (s.tryEmplace h1).1 = some h1
      ∧ currentService (s.tryEmplace h1).2 = some h1
      ∧ ((s.tryEmplace h1).2.tryEmplace h2).1 = none
      ∧ ((s.tryEmplace h1).2.tryEmplace h2).2 = (s.tryEmplace h1).2
      ∧ currentService ((s.tryEmplace h1).2.dropService) = none
      ∧ (((s.tryEmplace h1).2.dropService).tryEmplace h3).1 = some h3 := by
  cases s
  simp_all [ServiceSlot.tryEmplace, ServiceSlot.expired, ServiceSlot.dropService,
    currentService, ServiceSlot.lock]

theorem claim_C4_single_service_slot_lifecycle_witness :
    ((⟨none⟩ : ServiceSlot).tryEmplace 1).1 = some 1
      ∧ currentService ((⟨none⟩ : ServiceSlot).tryEmplace 1).2 = some 1
      ∧ (((⟨none⟩ : ServiceSlot).tryEmplace 1).2.tryEmplace 2).1 = none
      ∧ (((⟨none⟩ : ServiceSlot).tryEmplace 1).2.tryEmplace 2).2
          = ((⟨none⟩ : ServiceSlot).tryEmplace 1).2
      ∧ currentService (((⟨none⟩ : ServiceSlot).tryEmplace 1).2.dropService) = none
      ∧ ((((⟨none⟩ : ServiceSlot).tryEmplace 1).2.dropService).tryEmplace 3).1 = some 3 :=
  claim_C4_single_service_slot_lifecycle ⟨none⟩ 1 2 3 rfl

/-! ## The conversion registry (`conversion.hpp`, `coop/locking_weak_table.hpp`)

`conversion_table` maps `(typeid(To), typeid(From))` to a weak reference to
a `conversion_rule`.  Type identities are modelled by `Nat`, rules by a
function `Nat → Nat` tagged with its type pair, and weak-reference expiry by
a `live` flag per entry (`weak_ptr::lock` on a dead entry yields null, which
`locking_weak_table::find` returns). -/

structure ConvRule where
  toT : Nat
  fromT : Nat
  fn : Nat → Nat

structure RuleEntry where
  rule : ConvRule
  live : Bool

abbrev ConvTable := List ((Nat × Nat) × RuleEntry)

/-- `locking_weak_table::find` followed by `weak_ptr::lock`: the registered
rule for the key, or null when absent or expired. -/
def tableFind (t : ConvTable) (k : Nat × Nat) : Option ConvRule :=
  match t.find? (fun e => e.1 == k) with
  | some e => if e.2.live then some e.2.rule else none
  | none => none

/-- `locking_weak_table::set`: erase any entry under the key, then insert
the new one. -/
def tableSet (t : ConvTable) (k : Nat × Nat) (r : ConvRule) : ConvTable :=
  (k, ⟨r, true⟩) :: t.filter (fun e => e.1 != k)

/-- `conversion_table::set`: register a rule under the key
`(typeid_result, typeid_input)` (the registrant receives the shared
reference, so the entry starts live). -/
def registerRule (t : ConvTable) (r : ConvRule) : ConvTable :=
  tableSet t (r.toT, r.fromT) r

/-- The shared reference returned by registration expires: the weak entry
under the key goes dead. -/
def expireRule (t : ConvTable) (k : Nat × Nat) : ConvTable :=
  t.map (fun e => if e.1 = k then (e.1, { e.2 with live := false }) else e)

/-- `conversion_table::convert<To,From>`: `get()` throws
`no_conversion_rule` when `find` yields null, otherwise applies the rule. -/
def convert (t : ConvTable) (toT fromT x : Nat) : Except Unit Nat :=
  match tableFind t (toT, fromT) with
  | some r => Except.ok (r.fn x)
  | none => Except.error ()

/-- `conversion_table::try_convert<To,From>`: returns the supplied default
when `find` yields null, otherwise applies the rule; never throws. -/
def tryConvert (t : ConvTable) (toT fromT x dflt : Nat) : Nat :=
  match tableFind t (toT, fromT) with
  | some r => r.fn x
  | none => dflt

theorem tableFind_expire (t : ConvTable) (k : Nat × Nat) :
    tableFind (expireRule t k) k = none := by
  induction t with
  | nil => rfl
  | cons e rest ih =>
    simp only [expireRule, List.map_cons]
    by_cases he : e.1 = k
    · simp [tableFind, List.find?_cons, he]
    · rw [if_neg he]
      simp only [tableFind] at ih ⊢
      rw [List.find?_cons_of_neg _ (by simpa using he)]
      simpa [expireRule] using ih

/-- C8: `convert` throws `no_conversion_rule` exactly on a missing or
expired rule and otherwise returns the registered rule's output applied to
the input; `try_convert` never throws and returns the supplied default on a
miss; and once the registration's shared reference expires, lookups for the
pair behave as if no rule were registered. -/
theorem claim_C8_conversion_table_lookup (t : ConvTable) (toT fromT x d : Nat) :
    (tableFind t (toT, fromT) = none →
        convert t toT fromT x = Except.error ()
          ∧ tryConvert t toT fromT x d = d)
      ∧ (∀ r, tableFind t (toT, fromT) = some r →
          convert t toT fromT x = Except.ok (r.fn x)
            ∧ tryConvert t toT fromT x d = r.fn x)
      ∧ tableFind (expireRule t (toT, fromT)) (toT, fromT) = none
      ∧ (∀ r : ConvRule, r.toT = toT → r.fromT = fromT →
          tableFind (registerRule t r) (toT, fromT) = some r) := by
  refine ⟨fun h => ?_, fun r h => ?_, tableFind_expire t (toT, fromT), ?_⟩
  · simp [convert, tryConvert, h]
  · simp [convert, tryConvert, h]
  · intro r hto hfrom
    simp [registerRule, tableSet, tableFind, List.find?_cons, hto, hfrom]

theorem claim_C8_conversion_table_lookup_witness :
    (convert ([] : ConvTable) 0 1 5 = Except.error ()
        ∧ tryConvert ([] : ConvTable) 0 1 5 7 = 7)
      ∧ tableFind (registerRule ([] : ConvTable) ⟨0, 1, Nat.succ⟩) (0, 1)
          = some ⟨0, 1, Nat.succ⟩ :=
  ⟨(claim_C8_conversion_table_lookup [] 0 1 5 7).1 rfl,
   (claim_C8_conversion_table_lookup [] 0 1 5 7).2.2.2 ⟨0, 1, Nat.succ⟩ rfl rfl⟩

/-! ## Request dispatch: `topic_::issue` (topic_impl.hpp)

The destination-resolved dispatch walks the parent chain of the destination
node.  A node is modelled by the optional service occupying its slot
(`service_lock()`), the chain by the list of nodes from the destination
(head) toward the root.  A service function's observable behavior towards
the dispatcher is one of: it responds with some status; it returns without
responding; it throws a bare `status`; it throws a `status_exception`; or
it throws any other exception (which `issue` does not catch). -/

/-- The behavior of a service function when invoked with the request. -/
inductive SvcAct where
  | respondWith (s : Nat)
  | noRespond
  | throwStatus (s : Nat)
  | throwStatusExc (s : Nat)
  | throwOther
deriving DecidableEq, Repr

/-- A registered service: its receiver ignore mask and its behavior. -/
structure Svc where
  ignored : Nat
  act : SvcAct
deriving DecidableEq, Repr

/-- The observable state of a `pleb::request` during `issue`: its filtering
flags, its feature flags, whether a client is bound, and the statuses of the
responses delivered to that client so far. -/
structure ReqState where
  filtering : Nat
  features : Nat
  hasClient : Bool
  responses : List Nat
deriving DecidableEq, Repr

/-- `request::respond` (request.hpp): set `did_respond`, and deliver a
response carrying the status to the bound client if there is one. -/
def respond (m : ReqState) (s : Nat) : ReqState :=
  { m with
    features := m.features ||| didRespondFlag,
    responses := if m.hasClient then m.responses ++ [s] else m.responses }

/-- The outcome of `topic_::issue`: a service was invoked and `issue`
returned normally (`ok`), `service_not_found` was thrown (`notFound`), or
the service threw an exception that `issue` does not catch (`uncaught`).
`idx` is the position in the parent chain of the node whose service was
invoked; the `ReqState` is the request's state afterwards. -/
inductive IssueResult where
  | ok (idx : Nat) (m : ReqState)
  | notFound (m : ReqState)
  | uncaught (idx : Nat) (m : ReqState)
deriving DecidableEq, Repr

/-- `msg.features |= flags::did_send`. -/
def setDidSend (m : ReqState) : ReqState :=
  { m with features := m.features ||| didSendFlag }

/-- The try/catch around `svc->func(msg)` in `issue`: a bare thrown
`status` or a `status_exception` is caught and answered with
`msg.respond(...)`; any other exception escapes (`.error`). -/
def invokeService (svc : Svc) (m : ReqState) : Except ReqState ReqState :=
  match svc.act with
  | .respondWith s => .ok (respond m s)
  | .noRespond => .ok m
  | .throwStatus s => .ok (respond m s)
  | .throwStatusExc s => .ok (respond m s)
  | .throwOther => .error m

/-- The accepted-service body of `issue`: invoke the service with the
try/catch; if the message is not marked `did_respond` afterwards, respond
`NoContent`; then mark `did_send` and return. -/
def stepResult (idx : Nat) (svc : Svc) (m : ReqState) : IssueResult :=
  match invokeService svc m with
  | .ok m1 =>
    .ok idx (setDidSend
      (if m1.features &&& didRespondFlag = 0 then respond m1 statusNoContent else m1))
  | .error me => .uncaught idx me

/-- One iteration of the dispatch loop at a node:
`if (auto svc = node->service_lock()) if (svc->accepts(filtering)) {...}`. -/
def issueStep (svcOpt : Option Svc) (fil : Nat) (m : ReqState) (idx : Nat) :
    Option IssueResult :=
  match svcOpt with
  | some svc =>
    if accepts svc.ignored fil then some (stepResult idx svc m) else none
  | none => none

/-- The `while (recursive && node)` loop of `issue`, after the first
(goto-entered) iteration: each visited node is checked with the recursive
bit set in the filtering. -/
def issueLoop (chain : List (Option Svc)) (fil : Nat) (recursive : Bool)
    (m : ReqState) (idx : Nat) : IssueResult :=
  match chain with
  | [] => .notFound m
  | svcOpt :: rest =>
    if recursive then
      match issueStep svcOpt (fil ||| recursiveFlag) m idx with
      | some r => r
      | none => issueLoop rest fil recursive m (idx + 1)
    else .notFound m

/-- `msg.features &= ~flags::did_respond` (65023 = 0xFFFF & ~0x0200). -/
def clearDidRespond (m : ReqState) : ReqState :=
  { m with features := m.features &&& 65023 }

/-- `topic_::issue` for a resolved destination (eager topic): clear
`did_respond`, check the destination node with the recursive bit cleared
from the filtering (the goto-entered first iteration), then — while the
request is recursive — walk ancestors with the recursive bit set; throw
`service_not_found` when no service accepts. -/
def issue (chain : List (Option Svc)) (m0 : ReqState) : IssueResult :=
  let m := clearDidRespond m0
  let recursive := m.filtering &&& recursiveFlag != 0
  let fil := m.filtering &&& 32767
  match chain with
  | [] => .notFound m
  | svcOpt :: rest =>
    match issueStep svcOpt fil m 0 with
    | some r => r
    | none => issueLoop rest fil recursive m 1

/-- The first service along a chain that accepts the given filtering,
together with its position. -/
def findSvc (fil : Nat) : List (Option Svc) → Option (Nat × Svc)
  | [] => none
  | o :: rest =>
    match o with
    | some svc =>
      if accepts svc.ignored fil then some (0, svc)
      else (findSvc fil rest).map (fun p => (p.1 + 1, p.2))
    | none => (findSvc fil rest).map (fun p => (p.1 + 1, p.2))

/-- The service `issue` will invoke, with its chain position: the
destination node's service if it accepts the filtering sans `recursive`;
else, when the request is recursive, the first accepting ancestor service
with `recursive` set. -/
def issueSelect (chain : List (Option Svc)) (fil : Nat) : Option (Nat × Svc) :=
  match chain with
  | [] => none
  | dest :: ancestors =>
    let shifted := fun (l : List (Option Svc)) =>
      (findSvc ((fil &&& 32767) ||| recursiveFlag) l).map (fun p => (p.1 + 1, p.2))
    match dest with
    | some svc =>
      if accepts svc.ignored (fil &&& 32767) then some (0, svc)
      else if fil &&& recursiveFlag != 0 then shifted ancestors else none
    | none => if fil &&& recursiveFlag != 0 then shifted ancestors else none

theorem issueLoop_eq_findSvc (chain : List (Option Svc)) (fil : Nat)
    (m : ReqState) (idx : Nat) :
    issueLoop chain fil true m idx
      = match findSvc (fil ||| recursiveFlag) chain with
        | some (k, svc) => stepResult (idx + k) svc m
        | none => .notFound m := by
  induction chain generalizing idx with
  | nil => rfl
  | cons o rest ih =>
    rw [issueLoop, if_pos rfl]
    cases o with
    | none =>
      simp only [issueStep, findSvc]
      rw [ih (idx + 1)]
      cases hf : findSvc (fil ||| recursiveFlag) rest with
      | none => simp
      | some p => simp [Nat.add_assoc, Nat.add_comm 1 p.1]
    | some svc =>
      by_cases ha : accepts svc.ignored (fil ||| recursiveFlag)
      · simp [issueStep, findSvc, ha]
      · simp only [issueStep, findSvc, ha, if_neg, Bool.false_eq_true, if_false]
        rw [ih (idx + 1)]
        cases hf : findSvc (fil ||| recursiveFlag) rest with
        | none => simp
        | some p => simp [Nat.add_assoc, Nat.add_comm 1 p.1]

theorem issue_eq_select (chain : List (Option Svc)) (m : ReqState) :
    issue chain m
      = match issueSelect chain m.filtering with
        | some (j, svc) => stepResult j svc (clearDidRespond m)
        | none => .notFound (clearDidRespond m) := by
  have hfil : (clearDidRespond m).filtering = m.filtering := rfl
  cases chain with
  | nil => rfl
  | cons dest ancestors =>
    simp only [issue, issueSelect, hfil]
    cases dest with
    | some svc =>
      by_cases ha : accepts svc.ignored (m.filtering &&& 32767)
      · simp [issueStep, ha]
      · simp only [issueStep, ha, Bool.false_eq_true, if_false]
        by_cases hrec : (m.filtering &&& recursiveFlag != 0) = true
        · rw [hrec, if_pos rfl]
          rw [issueLoop_eq_findSvc]
          cases hf : findSvc ((m.filtering &&& 32767) ||| recursiveFlag) ancestors with
          | none => simp
          | some p => simp [Nat.add_comm 1 p.1]
        · rw [Bool.not_eq_true] at hrec
          rw [hrec]
          cases ancestors <;> simp [issueLoop]
    | none =>
      simp only [issueStep]
      by_cases hrec : (m.filtering &&& recursiveFlag != 0) = true
      · rw [hrec, if_pos rfl]
        rw [issueLoop_eq_findSvc]
        cases hf : findSvc ((m.filtering &&& 32767) ||| recursiveFlag) ancestors with
        | none => simp
        | some p => simp [Nat.add_comm 1 p.1]
      · rw [Bool.not_eq_true] at hrec
        rw [hrec]
        cases ancestors <;> simp [issueLoop]

theorem or_and_self (x y : Nat) : (x ||| y) &&& y = y := by
  apply Nat.eq_of_testBit_eq
  intro i
  simp [Nat.testBit_or, Nat.testBit_and]
  tauto

theorem cleared_and (x : Nat) : (x &&& 65023) &&& 512 = 0 := by
  rw [Nat.and_assoc]
  have h : (65023 &&& 512 : Nat) = 0 := by decide
  rw [h, Nat.and_zero]

theorem or_and_mask (f : Nat) (hf : f < 65536) :
    (f &&& 32767) ||| 32768 = f ||| 32768 := by
  apply Nat.eq_of_testBit_eq
  intro i
  rcases lt_trichotomy i 15 with hi | hi | hi
  · have h1 : Nat.testBit 32767 i = true := by
      have h : (32767 : Nat) = 2 ^ 15 - 1 := by norm_num
      rw [h, Nat.testBit_two_pow_sub_one]
      simpa using hi
    have h2 : Nat.testBit 32768 i = false := by
      have h : (32768 : Nat) = 2 ^ 15 := by norm_num
      rw [h]
      exact Nat.testBit_two_pow_of_ne (by omega)
    simp [Nat.testBit_or, Nat.testBit_and, h1, h2]
  · subst hi
    have h2 : Nat.testBit 32768 15 = true := by
      have h : (32768 : Nat) = 2 ^ 15 := by norm_num
      rw [h]
      exact Nat.testBit_two_pow_self
    simp [Nat.testBit_or, Nat.testBit_and, h2]
  · have hf2 : Nat.testBit f i = false := by
      apply Nat.testBit_eq_false_of_lt
      calc f < 65536 := hf
        _ = 2 ^ 16 := by norm_num
        _ ≤ 2 ^ i := Nat.pow_le_pow_right (by norm_num) (by omega)
    simp [Nat.testBit_or, Nat.testBit_and, hf2]

/-- Whether a node's (optional) service accepts the filtering. -/
def acceptsOpt (o : Option Svc) (fil : Nat) : Bool :=
  match o with
  | some svc => accepts svc.ignored fil
  | none => false

/-- The claim's wording of service selection (spec side of C2): use the
destination's service if its ignore mask accepts the request's filtering
with the recursive bit cleared; otherwise, iff the request carries the
recursive flag, the first ancestor service (leaf-first) accepting the
filtering with the recursive bit set; otherwise none
(`service_not_found`). -/
def selectServiceSpec (chain : List (Option Svc)) (fil : Nat) : Option Nat :=
  match chain with
  | [] => none
  | dest :: ancestors =>
    if acceptsOpt dest (fil &&& 32767) then some 0
    else if fil &&& recursiveFlag != 0 then
      (ancestors.findIdx? (fun o => acceptsOpt o (fil ||| recursiveFlag))).map (· + 1)
    else none

/-- The chain position of the service `issue` invoked, if any. -/
def issueIdx : IssueResult → Option Nat
  | .ok idx _ => some idx
  | .uncaught idx _ => some idx
  | .notFound _ => none

theorem acceptsOpt_some (svc : Svc) (f : Nat) :
    acceptsOpt (some svc) f = accepts svc.ignored f := rfl

theorem acceptsOpt_none (f : Nat) : acceptsOpt (none : Option Svc) f = false := rfl

theorem findSvc_idx (fil : Nat) (l : List (Option Svc)) :
    (findSvc fil l).map Prod.fst = l.findIdx? (fun o => acceptsOpt o fil) := by
  induction l with
  | nil => rfl
  | cons o rest ih =>
    cases o with
    | none =>
      rw [List.findIdx?_cons, acceptsOpt_none, if_neg (by simp), List.findIdx?_succ, ← ih]
      simp only [findSvc, Option.map_map]
      rfl
    | some svc =>
      rw [List.findIdx?_cons, acceptsOpt_some]
      by_cases ha : accepts svc.ignored fil
      · simp [findSvc, ha]
      · rw [if_neg (by simp [ha]), List.findIdx?_succ, ← ih]
        simp only [findSvc, ha, Bool.false_eq_true, if_false, Option.map_map]
        rfl

theorem stepResult_idx (j : Nat) (svc : Svc) (m : ReqState) :
    issueIdx (stepResult j svc m) = some j := by
  unfold stepResult
  cases hv : invokeService svc m <;> rfl

theorem select_spec_eq_issueSelect (chain : List (Option Svc)) (fil : Nat)
    (hf : fil < 65536) :
    selectServiceSpec chain fil = (issueSelect chain fil).map Prod.fst := by
  cases chain with
  | nil => rfl
  | cons dest ancestors =>
    have hbit : (fil &&& 32767) ||| recursiveFlag = fil ||| recursiveFlag :=
      or_and_mask fil hf
    cases dest with
    | some svc =>
      by_cases ha : accepts svc.ignored (fil &&& 32767)
      · simp [issueSelect, selectServiceSpec, acceptsOpt_some, ha]
      · rw [Bool.not_eq_true] at ha
        simp only [issueSelect, selectServiceSpec, acceptsOpt_some, ha, Bool.false_eq_true,
          if_false, hbit]
        cases hrec : (fil &&& recursiveFlag != 0) with
        | false => simp
        | true =>
          simp only [if_true, ← findSvc_idx]
          cases hfs : findSvc (fil ||| recursiveFlag) ancestors with
          | none => rfl
          | some p => rfl
    | none =>
      simp only [issueSelect, selectServiceSpec, acceptsOpt_none, Bool.false_eq_true,
        if_false, hbit]
      cases hrec : (fil &&& recursiveFlag != 0) with
      | false => simp
      | true =>
        simp only [if_true, ← findSvc_idx]
        cases hfs : findSvc (fil ||| recursiveFlag) ancestors with
        | none => rfl
        | some p => rfl

theorem issueIdx_eq_select (chain : List (Option Svc)) (m : ReqState)
    (hf : m.filtering < 65536) :
    issueIdx (issue chain m) = selectServiceSpec chain m.filtering := by
  rw [issue_eq_select, select_spec_eq_issueSelect chain m.filtering hf]
  cases hsel : issueSelect chain m.filtering with
  | none => rfl
  | some p => simp [stepResult_idx]

theorem or512_256_and (y : Nat) : ((y ||| 512) ||| 256) &&& 512 = 512 := by
  apply Nat.eq_of_testBit_eq
  intro i
  by_cases h : i = 9
  · subst h
    simp only [Nat.testBit_or, Nat.testBit_and]
    have h1 : Nat.testBit 512 9 = true := by decide
    have h2 : Nat.testBit 256 9 = false := by decide
    simp [h1, h2]
  · simp only [Nat.testBit_or, Nat.testBit_and]
    have h1 : Nat.testBit 512 i = false := by
      have : (512 : Nat) = 2 ^ 9 := by norm_num
      rw [this]
      exact Nat.testBit_two_pow_of_ne (by omega)
    simp [h1]

theorem cleared_and_256 (x : Nat) : (x &&& 65023) &&& 256 = x &&& 256 := by
  rw [Nat.and_assoc]
  have h : (65023 &&& 256 : Nat) = 256 := by decide
  rw [h]

/-- The status the dispatch logic in `issue` responds with for each service
behavior: the service's own respond call, the caught bare status, the caught
`status_exception`'s status, or the `NoContent` default; `none` for an
exception that `issue` does not catch. -/
def actStatus : SvcAct → Option Nat
  | .respondWith s => some s
  | .throwStatus s => some s
  | .throwStatusExc s => some s
  | .noRespond => some statusNoContent
  | .throwOther => none

theorem respond_feature_ne (m : ReqState) (s : Nat) :
    (respond m s).features &&& didRespondFlag ≠ 0 := by
  simp only [respond, didRespondFlag]
  rw [or_and_self m.features 512]
  decide

theorem stepResult_shape (j : Nat) (svc : Svc) (m : ReqState)
    (hm : m.features &&& didRespondFlag = 0) :
    (∀ s, actStatus svc.act = some s →
        stepResult j svc m = .ok j (setDidSend (respond m s)))
      ∧ (actStatus svc.act = none → stepResult j svc m = .uncaught j m) := by
  cases hact : svc.act with
  | respondWith s =>
    refine ⟨fun s' hs' => ?_, fun h => by simp [actStatus] at h⟩
    simp only [actStatus] at hs'
    cases hs'
    simp only [stepResult, invokeService, hact]
    rw [if_neg (respond_feature_ne m s)]
  | noRespond =>
    refine ⟨fun s' hs' => ?_, fun h => by simp [actStatus] at h⟩
    simp only [actStatus] at hs'
    cases hs'
    simp only [stepResult, invokeService, hact]
    rw [if_pos hm]
  | throwStatus s =>
    refine ⟨fun s' hs' => ?_, fun h => by simp [actStatus] at h⟩
    simp only [actStatus] at hs'
    cases hs'
    simp only [stepResult, invokeService, hact]
    rw [if_neg (respond_feature_ne m s)]
  | throwStatusExc s =>
    refine ⟨fun s' hs' => ?_, fun h => by simp [actStatus] at h⟩
    simp only [actStatus] at hs'
    cases hs'
    simp only [stepResult, invokeService, hact]
    rw [if_neg (respond_feature_ne m s)]
  | throwOther =>
    refine ⟨fun s' hs' => by simp [actStatus] at hs', fun _ => ?_⟩
    simp [stepResult, invokeService, hact]

theorem findSvc_sound (fil : Nat) (l : List (Option Svc)) (k : Nat) (svc : Svc)
    (h : findSvc fil l = some (k, svc)) :
    l.get? k = some (some svc) ∧ accepts svc.ignored fil = true := by
  induction l generalizing k svc with
  | nil => simp [findSvc] at h
  | cons o rest ih =>
    cases o with
    | some s =>
      by_cases ha : accepts s.ignored fil
      · simp only [findSvc, ha, if_pos] at h
        cases h
        exact ⟨rfl, ha⟩
      · simp only [findSvc, ha, Bool.false_eq_true, if_false, Option.map_eq_some'] at h
        obtain ⟨⟨k1, svc1⟩, hp, heq⟩ := h
        cases heq
        exact ⟨(ih k1 svc1 hp).1, (ih k1 svc1 hp).2⟩
    | none =>
      simp only [findSvc, Option.map_eq_some'] at h
      obtain ⟨⟨k1, svc1⟩, hp, heq⟩ := h
      cases heq
      exact ⟨(ih k1 svc1 hp).1, (ih k1 svc1 hp).2⟩

theorem issueSelect_sound (chain : List (Option Svc)) (fil : Nat) (j : Nat) (svc : Svc)
    (h : issueSelect chain fil = some (j, svc)) :
    chain.get? j = some (some svc) := by
  cases chain with
  | nil => simp [issueSelect] at h
  | cons dest ancestors =>
    cases dest with
    | some s =>
      by_cases ha : accepts s.ignored (fil &&& 32767)
      · simp only [issueSelect, ha, if_pos] at h
        cases h
        rfl
      · simp only [issueSelect, ha, Bool.false_eq_true, if_false] at h
        by_cases hrec : (fil &&& recursiveFlag != 0) = true
        · rw [hrec, if_pos rfl] at h
          simp only [Option.map_eq_some'] at h
          obtain ⟨⟨k1, svc1⟩, hp, heq⟩ := h
          cases heq
          exact (findSvc_sound _ ancestors k1 svc1 hp).1
        · rw [Bool.not_eq_true] at hrec
          rw [hrec] at h
          simp at h
    | none =>
      simp only [issueSelect] at h
      by_cases hrec : (fil &&& recursiveFlag != 0) = true
      · rw [hrec, if_pos rfl] at h
        simp only [Option.map_eq_some'] at h
        obtain ⟨⟨k1, svc1⟩, hp, heq⟩ := h
        cases heq
        exact (findSvc_sound _ ancestors k1 svc1 hp).1
      · rw [Bool.not_eq_true] at hrec
        rw [hrec] at h
        simp at h

/-- The request state carried by an `issue` outcome. -/
def resultState : IssueResult → ReqState
  | .ok _ m => m
  | .notFound m => m
  | .uncaught _ m => m

/-- C1 (amended): whenever `issue` invokes an accepting service and that
service returns normally or throws a bare status or a `status_exception`,
`issue` returns normally with `did_send` and `did_respond` set and exactly
one response delivered to the request's client (when one is bound): the
service's own response, the caught status, or the `NoContent` default.
When the service throws any other exception, `issue` propagates it: the
request gets no response and `did_send` is not newly set. -/
theorem claim_C1_amended_response_delivery (chain : List (Option Svc)) (m : ReqState) :
    (∀ idx m', issue chain m = IssueResult.ok idx m' →
        ∃ svc s, chain.get? idx = some (some svc)
          ∧ actStatus svc.act = some s
          ∧ m'.features &&& didSendFlag = didSendFlag
          ∧ m'.features &&& didRespondFlag = didRespondFlag
          ∧ (m.hasClient = true → m'.responses = m.responses ++ [s]))
      ∧ (∀ idx m', issue chain m = IssueResult.uncaught idx m' →
          ∃ svc, chain.get? idx = some (some svc)
            ∧ actStatus svc.act = none
            ∧ m'.responses = m.responses
            ∧ m'.features &&& didSendFlag = m.features &&& didSendFlag) := by
  have hclr : (clearDidRespond m).features &&& didRespondFlag = 0 := by
    simpa [didRespondFlag] using cleared_and m.features
  rw [issue_eq_select]
  cases hsel : issueSelect chain m.filtering with
  | none =>
    exact ⟨fun idx m' h => IssueResult.noConfusion h,
           fun idx m' h => IssueResult.noConfusion h⟩
  | some p =>
    obtain ⟨j, svc⟩ := p
    have hget := issueSelect_sound chain m.filtering j svc hsel
    have hshape := stepResult_shape j svc (clearDidRespond m) hclr
    have hred : (match some (j, svc) with
        | some (j, svc) => stepResult j svc (clearDidRespond m)
        | none => IssueResult.notFound (clearDidRespond m))
          = stepResult j svc (clearDidRespond m) := rfl
    rw [hred]
    cases hact : actStatus svc.act with
    | some s =>
      rw [hshape.1 s hact]
      refine ⟨fun idx m' h => ?_, fun idx m' h => IssueResult.noConfusion h⟩
      cases h
      refine ⟨svc, s, hget, hact, ?_, ?_, ?_⟩
      · simpa [setDidSend, respond, didSendFlag] using
          or_and_self ((clearDidRespond m).features ||| didRespondFlag) 256
      · simpa [setDidSend, respond, didSendFlag, didRespondFlag] using
          or512_256_and (clearDidRespond m).features
      · intro hcl
        simp [setDidSend, respond, clearDidRespond, hcl]
    | none =>
      rw [hshape.2 hact]
      refine ⟨fun idx m' h => IssueResult.noConfusion h, fun idx m' h => ?_⟩
      cases h
      refine ⟨svc, hget, hact, rfl, ?_⟩
      simpa [clearDidRespond, didSendFlag] using cleared_and_256 m.features

/-- C1 counterexample: a request (with a client, `regular` filtering) to a
destination whose accepting service throws an exception that is neither a
`status` nor a `status_exception`.  `issue` propagates the exception: no
response is delivered to the client and `did_send` is not set, refuting the
claim's conclusion that every issued request with an accepting service
delivers some response. -/
theorem claim_C1_counterexample_uncaught_exception :
    issue [some ⟨0, SvcAct.throwOther⟩] ⟨1, 0, true, []⟩
        = IssueResult.uncaught 0 ⟨1, 0, true, []⟩
      ∧ (resultState (issue [some ⟨0, SvcAct.throwOther⟩] ⟨1, 0, true, []⟩)).responses = []
      ∧ (resultState (issue [some ⟨0, SvcAct.throwOther⟩] ⟨1, 0, true, []⟩)).features
          &&& didSendFlag = 0 := by
  refine ⟨?_, ?_, ?_⟩ <;> decide

/-- C2: `issue` selects exactly the service described by the claim: the
destination node's service if its ignore mask accepts the request's
filtering with the recursive bit cleared; otherwise, iff the request is
recursive, the first ancestor service (leaf-first) accepting the filtering
with the recursive bit set; and it throws `service_not_found` exactly when
no such service exists.  (`accepts i f = (f &&& i == 0)`; filtering is a
16-bit value.) -/
theorem claim_C2_service_selection (chain : List (Option Svc)) (m : ReqState)
    (hf : m.filtering < 65536) :
    issueIdx (issue chain m) = selectServiceSpec chain m.filtering
      ∧ (selectServiceSpec chain m.filtering = none ↔
          issue chain m = IssueResult.notFound (clearDidRespond m)) := by
  have h1 := issueIdx_eq_select chain m hf
  refine ⟨h1, ?_, ?_⟩
  · intro hnone
    rw [issue_eq_select]
    have hsel : issueSelect chain m.filtering = none := by
      rw [select_spec_eq_issueSelect chain m.filtering hf] at hnone
      exact Option.map_eq_none'.1 hnone
    rw [hsel]
  · intro heq
    rw [heq] at h1
    exact h1.symm

theorem claim_C2_service_selection_witness :
    issueIdx (issue [none, some ⟨0, SvcAct.respondWith 200⟩] ⟨32769, 0, true, []⟩)
        = selectServiceSpec [none, some ⟨0, SvcAct.respondWith 200⟩] 32769
      ∧ (selectServiceSpec [none, some ⟨0, SvcAct.respondWith 200⟩] 32769 = none ↔
          issue [none, some ⟨0, SvcAct.respondWith 200⟩] ⟨32769, 0, true, []⟩
            = IssueResult.notFound (clearDidRespond ⟨32769, 0, true, []⟩)) :=
  claim_C2_service_selection [none, some ⟨0, SvcAct.respondWith 200⟩] ⟨32769, 0, true, []⟩ (by decide)

theorem claim_C1_amended_response_delivery_witness :
    ∃ svc s, [some (⟨0, SvcAct.throwStatus 418⟩ : Svc)].get? 0 = some (some svc)
      ∧ actStatus svc.act = some s
      ∧ (⟨1, 768, true, [418]⟩ : ReqState).features &&& didSendFlag = didSendFlag
      ∧ (⟨1, 768, true, [418]⟩ : ReqState).features &&& didRespondFlag = didRespondFlag
      ∧ ((⟨1, 0, true, []⟩ : ReqState).hasClient = true →
          (⟨1, 768, true, [418]⟩ : ReqState).responses
            = (⟨1, 0, true, []⟩ : ReqState).responses ++ [s]) :=
  (claim_C1_amended_response_delivery [some ⟨0, SvcAct.throwStatus 418⟩] ⟨1, 0, true, []⟩).1 0
    ⟨1, 768, true, [418]⟩ (by decide)

/-! ## Event dispatch: `topic_::publish` and `topic_::_publish_exception`
(topic_impl.hpp)

`publish` walks the destination node and (for a recursive event) its
ancestors, invoking at each node every subscriber in the pool whose ignore
mask accepts the effective filtering; a subscriber that throws is handled
by `_publish_exception`, which republishes the exception as an event
(status `InternalServerError`, `subscriber_exception` filtering — with
`recursive` added in the parent-fallback case; the original message's
`requirements` are carried over and not modelled here).  Instead of
recursively running the republished publication, the embedding collects one
`Republish` record per caught throw, describing exactly the `publish` call
`_publish_exception` makes. -/

/-- A subscription in a node's pool: its receiver ignore mask, whether its
function throws when invoked, and the node it is registered on, given as
the chain of node identifiers from the node (head) to the root (the tail is
the parent chain, so the node's parent exists iff the tail is nonempty). -/
structure Subscriber where
  ignored : Nat
  throws : Bool
  chain : List Nat
deriving DecidableEq, Repr

/-- The `publish` call made by `_publish_exception`: destination node
chain, event status, and event filtering flags. -/
structure Republish where
  target : List Nat
  status : Nat
  filtering : Nat
deriving DecidableEq, Repr

/-- `topic_::_publish_exception`: if the message being processed carries
`subscriber_exception`, republish on the throwing subscriber's parent
(`flags = subscriber_exception | recursive`) — and do nothing when the
subscriber's node has no parent; otherwise republish on the subscriber's
own node (`flags = subscriber_exception`).  Status is always
`InternalServerError`; the payload is the captured exception. -/
def publishExceptionTarget (msgFiltering : Nat) (sub : Subscriber) : Option Republish :=
  if msgFiltering &&& subscriberExceptionFlag ≠ 0 then
    match sub.chain with
    | _ :: p :: rest =>
      some ⟨p :: rest, statusInternalServerError,
        subscriberExceptionFlag ||| recursiveFlag⟩
    | _ => none
  else
    some ⟨sub.chain, statusInternalServerError, subscriberExceptionFlag⟩

/-- The inner loop of `publish` at one node:
`for (subscription &sub : node->subscribers()) if (sub.accepts(filtering))
{try {sub.func(msg);} catch (...) {_publish_exception(...);}}`.
Returns the indices (from `i`) of the invoked subscribers and the republish
records of those that threw.  `filEff` is the loop's effective filtering,
`filMsg` the message's own filtering (used by `_publish_exception`). -/
def publishNode : List Subscriber → Nat → Nat → Nat → List Nat × List Republish
  | [], _, _, _ => ([], [])
  | sub :: rest, filEff, filMsg, i =>
    if accepts sub.ignored filEff then
      (i :: (publishNode rest filEff filMsg (i + 1)).1,
       (if sub.throws then (publishExceptionTarget filMsg sub).toList else [])
         ++ (publishNode rest filEff filMsg (i + 1)).2)
    else publishNode rest filEff filMsg (i + 1)

/-- The `while (recursive && node)` loop of `publish` after the
goto-entered first iteration: ancestors are visited leaf-first with the
recursive bit set in the effective filtering. -/
def publishLoop : List (List Subscriber) → Nat → Nat → Bool → Nat →
    List (Nat × Nat) × List Republish
  | [], _, _, _, _ => ([], [])
  | subs :: rest, filEff, filMsg, recursive, ni =>
    if recursive then
      ((publishNode subs (filEff ||| recursiveFlag) filMsg 0).1.map (fun k => (ni, k))
         ++ (publishLoop rest filEff filMsg recursive (ni + 1)).1,
       (publishNode subs (filEff ||| recursiveFlag) filMsg 0).2
         ++ (publishLoop rest filEff filMsg recursive (ni + 1)).2)
    else ([], [])

/-- `topic_::publish` for a resolved destination: the destination node's
pool is visited with the recursive bit cleared from the filtering, then —
while the event is recursive — every ancestor pool with the recursive bit
set.  Nodes are given leaf-first; invocations are (node index, subscriber
index) pairs. -/
def publish (nodes : List (List Subscriber)) (f : Nat) :
    List (Nat × Nat) × List Republish :=
  match nodes with
  | [] => ([], [])
  | subs :: rest =>
    ((publishNode subs (f &&& 32767) f 0).1.map (fun k => (0, k))
       ++ (publishLoop rest (f &&& 32767) f (f &&& recursiveFlag != 0) 1).1,
     (publishNode subs (f &&& 32767) f 0).2
       ++ (publishLoop rest (f &&& 32767) f (f &&& recursiveFlag != 0) 1).2)

/-- The indices of all subscribers in a pool accepting a filtering —
independent of whether any of them throws. -/
def acceptedIdx (subs : List Subscriber) (fil : Nat) : List Nat :=
  ((subs.enumFrom 0).filter (fun p => accepts p.2.ignored fil)).map Prod.fst

/-- The republish records produced at one node: one per accepted,
throwing subscriber with a defined target. -/
def repsOf (subs : List Subscriber) (filEff filMsg : Nat) : List Republish :=
  (subs.filter (fun s => accepts s.ignored filEff && s.throws)).filterMap
    (publishExceptionTarget filMsg)

/-- The claim-level description of a publication: every accepting
subscriber of the destination is invoked, and — iff the event is recursive
— every accepting subscriber of every ancestor, leaf-first; the republishes
are exactly those of the accepted throwing subscribers.  The invocation
component depends only on the ignore masks, never on which subscribers
throw. -/
def publishSpec (nodes : List (List Subscriber)) (f : Nat) :
    List (Nat × Nat) × List Republish :=
  match nodes with
  | [] => ([], [])
  | dest :: ancestors =>
    ((acceptedIdx dest (f &&& 32767)).map (fun k => (0, k))
       ++ (if f &&& recursiveFlag != 0 then
            (ancestors.enumFrom 1).flatMap
              (fun p => (acceptedIdx p.2 ((f &&& 32767) ||| recursiveFlag)).map
                (fun k => (p.1, k)))
          else []),
     repsOf dest (f &&& 32767) f
       ++ (if f &&& recursiveFlag != 0 then
            ancestors.flatMap
              (fun subs => repsOf subs ((f &&& 32767) ||| recursiveFlag) f)
          else []))

theorem publishNode_fst (subs : List Subscriber) (fe fm i : Nat) :
    (publishNode subs fe fm i).1
      = ((subs.enumFrom i).filter (fun p => accepts p.2.ignored fe)).map Prod.fst := by
  induction subs generalizing i with
  | nil => rfl
  | cons sub rest ih =>
    by_cases ha : accepts sub.ignored fe
    · simp [publishNode, ha, List.enumFrom_cons, List.filter_cons, ih (i + 1)]
    · simp [publishNode, ha, List.enumFrom_cons, List.filter_cons, ih (i + 1)]

theorem publishNode_snd (subs : List Subscriber) (fe fm i : Nat) :
    (publishNode subs fe fm i).2 = repsOf subs fe fm := by
  induction subs generalizing i with
  | nil => rfl
  | cons sub rest ih =>
    by_cases ha : accepts sub.ignored fe
    · by_cases ht : sub.throws
      · simp only [publishNode, ha, if_pos, repsOf, List.filter_cons, ht, Bool.and_self,
          List.filterMap_cons]
        cases hpt : publishExceptionTarget fm sub <;>
          simp [hpt, ih (i + 1), repsOf]
      · simp only [publishNode, ha, if_pos, repsOf, List.filter_cons]
        simp [ht, ih (i + 1), ha, repsOf]
    · simp only [publishNode, ha, Bool.false_eq_true, if_false, repsOf, List.filter_cons]
      simp [ha, ih (i + 1), repsOf]

theorem publishLoop_eq (rest : List (List Subscriber)) (fe fm ni : Nat) :
    publishLoop rest fe fm true ni
      = ((rest.enumFrom ni).flatMap
           (fun p => (acceptedIdx p.2 (fe ||| recursiveFlag)).map (fun k => (p.1, k))),
         rest.flatMap (fun subs => repsOf subs (fe ||| recursiveFlag) fm)) := by
  induction rest generalizing ni with
  | nil => rfl
  | cons subs rest ih =>
    simp only [publishLoop, if_pos, List.enumFrom_cons, List.flatMap_cons]
    rw [ih (ni + 1)]
    simp [publishNode_fst, publishNode_snd, acceptedIdx]

theorem publish_eq_spec (nodes : List (List Subscriber)) (f : Nat) :
    publish nodes f = publishSpec nodes f := by
  cases nodes with
  | nil => rfl
  | cons dest ancestors =>
    simp only [publish, publishSpec]
    cases hrec : (f &&& recursiveFlag != 0) with
    | true =>
      rw [publishLoop_eq]
      simp [publishNode_fst, publishNode_snd, acceptedIdx]
    | false =>
      cases ancestors with
      | nil => simp [publishLoop, publishNode_fst, publishNode_snd, acceptedIdx]
      | cons a rest => simp [publishLoop, publishNode_fst, publishNode_snd, acceptedIdx]

/-- C3 (amended): a throwing subscriber never propagates its exception to
the publisher — `publish` is total, and its invocation list equals the
throw-independent `publishSpec` list containing every accepting subscriber;
the exception is republished as a `subscriber_exception` event with status
`InternalServerError` on the throwing subscriber's own topic, except that
when the publication already carries `subscriber_exception` it is
republished on the subscriber's parent topic when that node has a parent —
a throwing subscriber at the root node of such a publication triggers no
republish at all. -/
theorem claim_C3_amended_subscriber_exception_republish (nodes : List (List Subscriber)) (f : Nat) (sub : Subscriber) :
    publish nodes f = publishSpec nodes f
      ∧ (f &&& subscriberExceptionFlag = 0 →
          publishExceptionTarget f sub
            = some ⟨sub.chain, statusInternalServerError, subscriberExceptionFlag⟩)
      ∧ (∀ n p rest, f &&& subscriberExceptionFlag ≠ 0 → sub.chain = n :: p :: rest →
          publishExceptionTarget f sub
            = some ⟨p :: rest, statusInternalServerError,
                subscriberExceptionFlag ||| recursiveFlag⟩)
      ∧ (∀ n, f &&& subscriberExceptionFlag ≠ 0 → sub.chain = [n] →
          publishExceptionTarget f sub = none) := by
  refine ⟨publish_eq_spec nodes f, fun h => ?_, fun n p rest hne hch => ?_, fun n hne hch => ?_⟩
  · rw [publishExceptionTarget, if_neg (by simp [h])]
  · rw [publishExceptionTarget, if_pos hne, hch]
  · rw [publishExceptionTarget, if_pos hne, hch]

/-- C3 counterexample: a subscriber registered at the root node (no
parent) throws while handling a publication that carries the
`subscriber_exception` flag.  The claim says the exception is republished
on the subscriber's parent topic; the code republishes nothing. -/
theorem claim_C3_counterexample_root_subscriber :
    publishExceptionTarget subscriberExceptionFlag ⟨0, true, [0]⟩ = none
      ∧ (publish [[⟨0, true, [0]⟩]] subscriberExceptionFlag).2 = [] := by
  constructor <;> decide

theorem claim_C3_amended_subscriber_exception_republish_witness :
    publishExceptionTarget 1 ⟨0, true, [5, 7]⟩
        = some ⟨[5, 7], statusInternalServerError, subscriberExceptionFlag⟩
      ∧ publishExceptionTarget subscriberExceptionFlag ⟨0, true, [5, 7]⟩
        = some ⟨[7], statusInternalServerError,
            subscriberExceptionFlag ||| recursiveFlag⟩ :=
  ⟨(claim_C3_amended_subscriber_exception_republish [[]] 1 ⟨0, true, [5, 7]⟩).2.1 (by decide),
   (claim_C3_amended_subscriber_exception_republish [[]] subscriberExceptionFlag ⟨0, true, [5, 7]⟩).2.2.1 5 7 []
     (by decide) rfl⟩

/-! ## Relay construction checks (`event.hpp`, `request.hpp`)

`forward_events` / `forward_requests` throw before registering anything
when the forwarder can receive recursive messages (its ignore mask lacks
the `recursive` bit) and `this->is_ancestor_of(destination)` holds.
`is_ancestor_of` (topic.hpp) loops: it compares full path-string lengths,
pops the other topic to its parent until the lengths meet, and then
compares the path strings.  Topics are modelled by their segment lists
below the global root; the full path string is `"[root]"` followed by
`'/' ⧺ segment` for each segment, exactly as the trie builds `_path`, and
popping a (resolved) topic drops its last segment. -/

/-- The global root resource's id (`"[root]"`), the common prefix of every
full path. -/
def rootSeg : List Char := "[root]".toList

/-- The part of a full path below the root: `'/' ⧺ segment` for each
segment, in order. -/
def pathTail (segs : List (List Char)) : List Char :=
  segs.flatMap (fun s => '/' :: s)

/-- `topic::path()` of the node with the given segment list. -/
def pathChars (segs : List (List Char)) : List Char := rootSeg ++ pathTail segs

/-- `topic_::is_ancestor_of` (topic.hpp): compare path lengths, popping
`b` toward the root until its path is no longer than `a`'s, then compare
the paths.  (The `b = []` arm is the unreachable pop-below-root case: the
loop always stops at the root because every path carries the `"[root]"`
prefix.) -/
def isAncestorOf (a b : List (List Char)) : Bool :=
  if (pathChars b).length < (pathChars a).length then false
  else if (pathChars b).length = (pathChars a).length then pathChars a == pathChars b
  else if hb : b = [] then false
  else isAncestorOf a b.dropLast
  termination_by b.length
  decreasing_by
    have hpos : 0 < b.length := List.length_pos.2 hb
    simp [List.length_dropLast]
    omega

/-- Well-formed topic segments: no segment contains the separator (the
segments come from `topic_view` iteration, which splits on it). -/
abbrev SepFree (segs : List (List Char)) : Prop := ∀ s ∈ segs, ('/' : Char) ∉ s

theorem pathTail_append (a b : List (List Char)) :
    pathTail (a ++ b) = pathTail a ++ pathTail b := by
  simp [pathTail]

theorem pathTail_head (t : List (List Char)) (x : Char) (rest : List Char)
    (h : pathTail t = x :: rest) : x = '/' := by
  cases t with
  | nil => simp [pathTail] at h
  | cons s t' =>
    simp only [pathTail, List.flatMap_cons, List.cons_append, List.cons.injEq] at h
    exact h.1.symm

theorem pathTail_inj (a : List (List Char)) : ∀ (b : List (List Char)),
    SepFree a → SepFree b → pathTail a = pathTail b → a = b := by
  induction a with
  | nil =>
    intro b _ _ h
    cases b with
    | nil => rfl
    | cons s t => simp [pathTail] at h
  | cons s t ih =>
    intro b ha hb h
    cases b with
    | nil => simp [pathTail] at h
    | cons s' t' =>
      simp only [pathTail, List.flatMap_cons, List.cons_append, List.cons.injEq] at h
      obtain ⟨-, h2⟩ := h
      have hs : s = s' := by
        rcases List.append_eq_append_iff.1 h2 with ⟨a', ha1, ha2⟩ | ⟨c', hc1, hc2⟩
        · cases a' with
          | nil => simpa using ha1.symm
          | cons x a'' =>
            exfalso
            have hx : x = '/' :=
              pathTail_head t x (a'' ++ pathTail t') (by simpa using ha2)
            have hmem : x ∈ s' := by
              rw [ha1]
              exact List.mem_append_right s (List.mem_cons_self x a'')
            exact (hb s' (List.mem_cons_self s' t')) (hx ▸ hmem)
        · cases c' with
          | nil => simpa using hc1
          | cons x c'' =>
            exfalso
            have hx : x = '/' :=
              pathTail_head t' x (c'' ++ pathTail t) (by simpa using hc2)
            have hmem : x ∈ s := by
              rw [hc1]
              exact List.mem_append_right s' (List.mem_cons_self x c'')
            exact (ha s (List.mem_cons_self s t)) (hx ▸ hmem)
      subst hs
      have h3 : pathTail t = pathTail t' := by
        exact List.append_cancel_left h2
      have := ih t' (fun u hu => ha u (List.mem_cons_of_mem s hu))
        (fun u hu => hb u (List.mem_cons_of_mem s hu)) h3
      rw [this]

theorem pathChars_le_of_prefix_rel (a b : List (List Char)) (h : a <+: b) :
    (pathChars a).length ≤ (pathChars b).length := by
  obtain ⟨c, rfl⟩ := h
  simp [pathChars, pathTail_append]

theorem pathChars_lt_of_proper_prefix_rel (a b : List (List Char)) (h : a <+: b)
    (hne : a ≠ b) : (pathChars a).length < (pathChars b).length := by
  obtain ⟨c, rfl⟩ := h
  cases c with
  | nil => simp at hne
  | cons x cs =>
    simp [pathChars, pathTail_append, pathTail]

theorem eq_of_prefix_of_pathChars_length_eq (a b : List (List Char)) (h : a <+: b)
    (hlen : (pathChars b).length = (pathChars a).length) : a = b := by
  by_contra hne
  exact absurd hlen (Nat.ne_of_gt (pathChars_lt_of_proper_prefix_rel a b h hne))

theorem prefix_dropLast_of_proper (a b : List (List Char)) (h : a <+: b)
    (hne : a ≠ b) : a <+: b.dropLast := by
  obtain ⟨c, rfl⟩ := h
  cases c with
  | nil => simp at hne
  | cons x cs =>
    rw [List.dropLast_append_of_ne_nil _ (by simp)]
    exact List.prefix_append a _

theorem isAncestorOf_of_prefix_rel (a : List (List Char)) :
    ∀ b, a <+: b → isAncestorOf a b = true := by
  intro b
  induction b using isAncestorOf.induct a with
  | case1 x hlt =>
    intro hp
    exact absurd (pathChars_le_of_prefix_rel a x hp) (by omega)
  | case2 x hlt heq =>
    intro hp
    have := eq_of_prefix_of_pathChars_length_eq a x hp heq
    subst this
    rw [isAncestorOf, if_neg hlt, if_pos heq]
    simp
  | case3 hlt heq =>
    intro hp
    have ha : a = [] := List.prefix_nil.1 hp
    subst ha
    exact absurd rfl heq
  | case4 x hlt heq hne ih =>
    intro hp
    have hax : a ≠ x := by
      rintro rfl
      exact heq rfl
    rw [isAncestorOf, if_neg hlt, if_neg heq, dif_neg hne]
    exact ih (prefix_dropLast_of_proper a x hp hax)

theorem prefix_of_isAncestorOf (a : List (List Char)) (ha : SepFree a) :
    ∀ b, SepFree b → isAncestorOf a b = true → a <+: b := by
  intro b
  induction b using isAncestorOf.induct a with
  | case1 x hlt =>
    intro _ h
    rw [isAncestorOf, if_pos hlt] at h
    exact absurd h (by simp)
  | case2 x hlt heq =>
    intro hbx h
    rw [isAncestorOf, if_neg hlt, if_pos heq] at h
    have hpc : pathChars a = pathChars x := by simpa using h
    have hpt : pathTail a = pathTail x := List.append_cancel_left hpc
    rw [pathTail_inj a x ha hbx hpt]
  | case3 hlt heq =>
    intro _ h
    rw [isAncestorOf, if_neg hlt, if_neg heq, dif_pos rfl] at h
    exact absurd h (by simp)
  | case4 x hlt heq hne ih =>
    intro hbx h
    rw [isAncestorOf, if_neg hlt, if_neg heq, dif_neg hne] at h
    have hsub : SepFree x.dropLast := fun u hu =>
      hbx u ((List.dropLast_sublist x).subset hu)
    exact (ih hsub h).trans (List.dropLast_prefix x)

theorem isAncestorOf_iff (a b : List (List Char)) (ha : SepFree a) (hb : SepFree b) :
    isAncestorOf a b = true ↔ a <+: b :=
  ⟨prefix_of_isAncestorOf a ha b hb, isAncestorOf_of_prefix_rel a b⟩

/-- `topic_::forward_events` (event.hpp): throw when the relay does not
ignore recursive messages and the destination is a descendant of the
source; otherwise register the relay subscription (modelled by appending
its id to the registration list). -/
def forwardEvents (src dst : List (List Char)) (ignoreFil : Nat)
    (regs : List Nat) (newId : Nat) : Except Unit (List Nat) :=
  if (ignoreFil &&& recursiveFlag == 0) && isAncestorOf src dst then Except.error ()
  else Except.ok (regs ++ [newId])

/-- `topic_::forward_requests` (request.hpp): the same check, then
register the relay service. -/
def forwardRequests (src dst : List (List Char)) (ignoreFil : Nat)
    (regs : List Nat) (newId : Nat) : Except Unit (List Nat) :=
  if (ignoreFil &&& recursiveFlag == 0) && isAncestorOf src dst then Except.error ()
  else Except.ok (regs ++ [newId])

/-- C7: constructing an event relay or a service relay throws exactly
when the destination is a descendant of the source (its segment list
extends the source's — reflexively, matching `is_ancestor_of`) and the
relay's ignore mask leaves it able to receive recursive messages; when the
construction is rejected nothing is registered, and otherwise exactly the
relay is registered. -/
theorem claim_C7_relay_rejects_recursive_descendant (src dst : List (List Char)) (ignoreFil : Nat)
    (regs : List Nat) (newId : Nat) (hs : SepFree src) (hd : SepFree dst) :
    ((∃ e, forwardEvents src dst ignoreFil regs newId = Except.error e) ↔
        (src <+: dst ∧ ignoreFil &&& recursiveFlag = 0))
      ∧ ((∃ e, forwardRequests src dst ignoreFil regs newId = Except.error e) ↔
          (src <+: dst ∧ ignoreFil &&& recursiveFlag = 0))
      ∧ (¬(src <+: dst ∧ ignoreFil &&& recursiveFlag = 0) →
          forwardEvents src dst ignoreFil regs newId = Except.ok (regs ++ [newId])
            ∧ forwardRequests src dst ignoreFil regs newId
                = Except.ok (regs ++ [newId])) := by
  have hiff : (((ignoreFil &&& recursiveFlag == 0) && isAncestorOf src dst) = true)
      ↔ (src <+: dst ∧ ignoreFil &&& recursiveFlag = 0) := by
    rw [Bool.and_eq_true, isAncestorOf_iff src dst hs hd]
    constructor
    · rintro ⟨h1, h2⟩
      exact ⟨h2, by simpa using h1⟩
    · rintro ⟨h1, h2⟩
      exact ⟨by simpa using h2, h1⟩
  by_cases hc : ((ignoreFil &&& recursiveFlag == 0) && isAncestorOf src dst) = true
  · have hr := hiff.1 hc
    have hand : isAncestorOf src dst = true := ((Bool.and_eq_true _ _ ▸ hc : _ ∧ _)).2
    refine ⟨?_, ?_, fun hn => absurd hr hn⟩
    · simp [forwardEvents, hc, hr, hand]
    · simp [forwardRequests, hc, hr, hand]
  · have hr : ¬(src <+: dst ∧ ignoreFil &&& recursiveFlag = 0) := fun h => hc (hiff.2 h)
    refine ⟨?_, ?_, fun _ => ?_⟩
    · simp [forwardEvents, hc, hr]
    · simp [forwardRequests, hc, hr]
    · constructor <;> simp [forwardEvents, forwardRequests, hc]

theorem claim_C7_relay_rejects_recursive_descendant_witness :
    ((∃ e, forwardEvents [['a']] [['a'], ['b']] 0 [] 5 = Except.error e) ↔
        ([['a']] <+: [['a'], ['b']] ∧ (0 : Nat) &&& recursiveFlag = 0))
      ∧ ((∃ e, forwardRequests [['a']] [['a'], ['b']] 0 [] 5 = Except.error e) ↔
          ([['a']] <+: [['a'], ['b']] ∧ (0 : Nat) &&& recursiveFlag = 0))
      ∧ (¬([['a']] <+: [['a'], ['b']] ∧ (0 : Nat) &&& recursiveFlag = 0) →
          forwardEvents [['a']] [['a'], ['b']] 0 [] 5 = Except.ok ([] ++ [5])
            ∧ forwardRequests [['a']] [['a'], ['b']] 0 [] 5 = Except.ok ([] ++ [5])) :=
  claim_C7_relay_rejects_recursive_descendant [['a']] [['a'], ['b']] 0 [] 5 (by decide) (by decide)

end Pleb
